import Mathlib

/-!
# Verification of the audiobook ingestion & series-reconciliation core

Shallow embedding of the audiobook-management logic of the repository:

* `src/server/src/services/audible-manager.ts` (class `AudibleManager`):
  `normalizeLibationData`, `cleanSeriesName`, `parseSeriesPosition`,
  `parseDate`, `parseDuration`, `parseRating`, `upsertAudiobook`,
  `detectMissingSeriesBooks`, `addMissingBookPlaceholder`,
  `getMissingBooksCount`, `markAsListened`, `parseLibationExport`;
* `src/server/src/utils/database.ts`: the `audiobooks` table
  (`id INTEGER PRIMARY KEY AUTOINCREMENT`, `asin TEXT UNIQUE`, no other
  uniqueness constraint) and SQLite `INSERT OR REPLACE` semantics;
* the near-duplicate legacy implementation in `src/unnamed/part_000`
  (class `EnhancedAudibleManager`) where it diverges from the TypeScript
  service (its `author` default in `normalizeLibationData`).

Modelling conventions:

* JavaScript numbers are modelled as `ℚ`.  Every number in this code path
  arises from `parseInt`/`parseFloat` of decimal digit strings followed by
  `+`, `*60` and comparisons, all of which are exact on decimals, so the
  rational model agrees with IEEE doubles on the whole domain exercised here.
* Spreadsheet cell values are `JSVal` (string, number, `null`, `undefined`);
  a row is an association list of column name to value.
* Fallible JS code is modelled in `Except JSErr`; the only `throw` site
  reachable from `normalizeLibationData` is calling the string method
  `.trim()`/`.replace()` on a non-string truthy value in `cleanSeriesName`.
* The SQLite store is a list of `(rowid, record)` pairs plus the
  autoincrement counter.  `INSERT OR REPLACE` deletes the rows conflicting
  on the `UNIQUE` `asin` column (SQL `NULL`s never conflict with each
  other) and then inserts a fresh row with a fresh `rowid`.  The
  `created_at`/`updated_at` timestamp columns are not modelled (wall-clock
  values, irrelevant to every property below).
* File/workbook I/O of `parseLibationExport` is out of scope; the model
  receives the list of rows `XLSX.utils.sheet_to_json` would produce.
-/

/-- A JavaScript scalar value as it appears in a parsed spreadsheet row. -/
inductive JSVal where
  | str (s : String)
  | num (q : ℚ)
  | null
  | undefinedVal
deriving DecidableEq

/-- JavaScript truthiness for the scalar values in scope
(`'' `, `0`, `null`, `undefined` are falsy). -/
def JSVal.truthy : JSVal → Bool
  | .str s => decide (s ≠ "")
  | .num q => decide (q ≠ 0)
  | .null => false
  | .undefinedVal => false

/-- The runtime error raised by calling a string method on a non-string. -/
inductive JSErr where
  | typeError
deriving DecidableEq

deriving instance DecidableEq for Except

/-- One raw spreadsheet row: column name to cell value. -/
abbrev Row := List (String × JSVal)

/-- JS property read `row[name]`: an absent key yields `undefined`. -/
def rowGet (row : Row) (name : String) : JSVal :=
  match row.find? (fun kv => kv.1 == name) with
  | some kv => kv.2
  | none => .undefinedVal

/-- The alias-loop condition
`row[name] !== undefined && row[name] !== null && row[name] !== ''`. -/
def presentCell (v : JSVal) : Bool :=
  decide (v ≠ .undefinedVal) && decide (v ≠ .null) && decide (v ≠ .str "")

/-- The per-field alias loop of `normalizeLibationData`: first present
(non-`undefined`, non-`null`, non-`''`) cell among the alias names wins. -/
def firstMatch (row : Row) : List String → Option JSVal
  | [] => none
  | n :: rest =>
    let v := rowGet row n
    if presentCell v then some v else firstMatch row rest

/-- `x || default` on an optionally-found field value. -/
def jsOr (o : Option JSVal) (d : JSVal) : JSVal :=
  match o with
  | some v => if v.truthy then v else d
  | none => d

/-- `x || undefined` on an optionally-found field value. -/
def jsOrUndef (o : Option JSVal) : Option JSVal :=
  match o with
  | some v => if v.truthy then some v else none
  | none => none

/-! ## Character classes and number formatting -/

/-- The regex class `\d`. -/
def isDigitChar (c : Char) : Bool := c.isDigit

/-- The regex class `\s` (ASCII whitespace; the additional Unicode space
characters JS includes never occur in the inputs of interest). -/
def isSpaceChar (c : Char) : Bool := c.isWhitespace

/-- A character the regex `.` can match (JS `.` without the `s` flag
excludes line terminators). -/
def dotOK (c : Char) : Bool :=
  decide (c ≠ '\n') && decide (c ≠ '\r') &&
    decide (c ≠ Char.ofNat 0x2028) && decide (c ≠ Char.ofNat 0x2029)

/-- Digit string to natural number (the effect of `parseInt` on an
all-digit capture). -/
def digitsToNat (ds : List Char) : Nat :=
  ds.foldl (fun a c => a * 10 + (c.toNat - '0'.toNat)) 0

/-- The rational value of an integer digit string and a fraction digit
string (`parseFloat` on a `\d+(\.\d+)?` capture). -/
def ratOfDigits (ip fp : List Char) : ℚ :=
  (digitsToNat ip : ℚ) + (digitsToNat fp : ℚ) / (10 : ℚ) ^ fp.length

/-- Decimal digits of the fractional part `q` (`0 ≤ q < 1`), with fuel;
used only to render JS numbers into placeholder titles. -/
def fracDigitsStr : Nat → ℚ → String
  | 0, _ => ""
  | fuel + 1, q =>
    let q10 := q * 10
    let d : ℤ := ⌊q10⌋
    toString d ++ (if q10 - (d : ℚ) = 0 then "" else fracDigitsStr fuel (q10 - (d : ℚ)))

/-- JS number-to-string on a nonnegative value. -/
def jsNumToStringNonneg (q : ℚ) : String :=
  if q.den = 1 then toString q.num
  else toString ⌊q⌋ ++ "." ++ fracDigitsStr 20 (q - (⌊q⌋ : ℚ))

/-- JS number-to-string (`String(x)` / template-literal interpolation)
for the finite decimal values arising in this program. -/
def jsNumToString (q : ℚ) : String :=
  if q < 0 then "-" ++ jsNumToStringNonneg (-q) else jsNumToStringNonneg q

/-- JS `String(v)` coercion. -/
def jsToString : JSVal → String
  | .str s => s
  | .num q => jsNumToString q
  | .null => "null"
  | .undefinedVal => "undefined"

/-- JS `String.prototype.trim`. -/
def jsTrim (cs : List Char) : List Char :=
  ((cs.dropWhile isSpaceChar).reverse.dropWhile isSpaceChar).reverse

/-! ## `cleanSeriesName`

`series.replace(/,?\s*Book\s+\d+.*$/i, '').replace(/,?\s*#\d+.*$/i, '')
      .replace(/,?\s*Volume\s+\d+.*$/i, '').replace(/,?\s*Part\s+\d+.*$/i, '').trim()`

Each of the four patterns is anchored to the end by `.*$`, so a
(leftmost) match removes the whole suffix starting at the match position:
`replace` truncates the string at the first position where the pattern
matches.  Inside each pattern every quantifier is effectively
maximal-munch (shrinking `\d+`/`\s*`/`,?` can never turn a failing
attempt at a position into a success, because the character classes that
follow are disjoint from the shrunk class), and `.*$` requires that no
line terminator follows, since `.` cannot match one. -/

/-- Case-insensitive literal keyword match; returns the remainder.
The keyword is given in lowercase. -/
def dropPrefixCI : List Char → List Char → Option (List Char)
  | [], cs => some cs
  | _ :: _, [] => none
  | k :: ks, c :: cs => if c.toLower = k then dropPrefixCI ks cs else none

/-- Does `,?\s*<kw>(\s+ if needSpace)\d+.*$` match starting exactly here? -/
def matchAnnotAt (kw : List Char) (needSpace : Bool) (cs : List Char) : Bool :=
  let cs1 := match cs with
    | ',' :: r => r
    | _ => cs
  let cs2 := cs1.dropWhile isSpaceChar
  match dropPrefixCI kw cs2 with
  | none => false
  | some cs3 =>
    let hadSpace := match cs3 with
      | c :: _ => isSpaceChar c
      | [] => false
    let cs4 := if needSpace then cs3.dropWhile isSpaceChar else cs3
    let spaceOK := !needSpace || hadSpace
    match cs4 with
    | d :: _ =>
      spaceOK && isDigitChar d && (cs4.dropWhile isDigitChar).all dotOK
    | [] => false

/-- `String.replace(pat, '')` for an end-anchored pattern: truncate at the
leftmost position where the pattern matches. -/
def truncAtMatch (pat : List Char → Bool) : List Char → List Char
  | [] => []
  | c :: rest => if pat (c :: rest) then [] else c :: truncAtMatch pat rest

/-- The four suffix-stripping replaces of `cleanSeriesName`, in source order. -/
def cleanSeriesChars (cs : List Char) : List Char :=
  let r1 := truncAtMatch (matchAnnotAt ['b', 'o', 'o', 'k'] true) cs
  let r2 := truncAtMatch (matchAnnotAt ['#'] false) r1
  let r3 := truncAtMatch (matchAnnotAt ['v', 'o', 'l', 'u', 'm', 'e'] true) r2
  let r4 := truncAtMatch (matchAnnotAt ['p', 'a', 'r', 't'] true) r3
  jsTrim r4

/-- `cleanSeriesName(series)` of `audible-manager.ts`.  The argument is the
raw field value (`undefined` when no alias matched).  `!series` and
`series.trim() === ''` return `undefined`; calling `.trim()` on a truthy
non-string value throws `TypeError`.  Note the cleaned result may be the
empty string (the source's final `.trim()` result is returned as-is). -/
def cleanSeriesName (o : Option JSVal) : Except JSErr (Option String) :=
  match o with
  | none => .ok none
  | some v =>
    if !v.truthy then .ok none
    else
      match v with
      | .str s =>
        if jsTrim s.toList = [] then .ok none
        else .ok (some (String.mk (cleanSeriesChars s.toList)))
      | _ => .error .typeError

/-! ## `parseSeriesPosition`, `parseRating`, `parseDate` -/

/-- Leftmost `(\d+(?:\.\d+)?)` capture: integer digits and (possibly
empty) fraction digits. -/
def scanDecimal : List Char → Option (List Char × List Char)
  | [] => none
  | c :: rest =>
    if isDigitChar c then
      let ds := (c :: rest).takeWhile isDigitChar
      let r := (c :: rest).dropWhile isDigitChar
      match r with
      | '.' :: r2 =>
        match r2 with
        | d :: _ =>
          if isDigitChar d then some (ds, r2.takeWhile isDigitChar) else some (ds, [])
        | [] => some (ds, [])
      | _ => some (ds, [])
    else scanDecimal rest

/-- `parseSeriesPosition(position)`: first `\d+(\.\d+)?` run anywhere in
`String(position)`, as a float; no match (or falsy input) is absent. -/
def parseSeriesPosition (o : Option JSVal) : Option ℚ :=
  match o with
  | none => none
  | some v =>
    if !v.truthy then none
    else
      match scanDecimal (jsToString v).toList with
      | some (ip, fp) => some (ratOfDigits ip fp)
      | none => none

/-- `parseFloat` on a string containing only digits and dots
(the shape produced by the rating strip): leading `\d*(\.\d*)?` prefix,
`NaN` (none) when the prefix contains no digit. -/
def jsParseFloatStripped (cs : List Char) : Option ℚ :=
  let ip := cs.takeWhile isDigitChar
  let r := cs.dropWhile isDigitChar
  match r with
  | '.' :: r2 =>
    let fp := r2.takeWhile isDigitChar
    if ip.isEmpty && fp.isEmpty then none else some (ratOfDigits ip fp)
  | _ => if ip.isEmpty then none else some (ratOfDigits ip [])

/-- `parseRating(rating)`: strip every character that is not a digit or
`.` from `String(rating)`, then `parseFloat`; `NaN` is absent. -/
def parseRating (o : Option JSVal) : Option ℚ :=
  match o with
  | none => none
  | some v =>
    if !v.truthy then none
    else jsParseFloatStripped ((jsToString v).toList.filter
      (fun c => isDigitChar c || decide (c = '.')))

/-- Models the JS runtime's `new Date(dateStr)` followed by
`.toISOString().split('T')[0]`, restricted to `YYYY-MM-DD`-prefixed
strings (further runtime-accepted formats are implementation-defined and
no claim depends on them; `new Date` itself never throws, and the
`isNaN` guard makes the failure case `undefined`). -/
def jsDateParse (s : String) : Option String :=
  match s.toList with
  | y1 :: y2 :: y3 :: y4 :: '-' :: m1 :: m2 :: '-' :: d1 :: d2 :: _ =>
    if [y1, y2, y3, y4, m1, m2, d1, d2].all isDigitChar then
      some (String.mk [y1, y2, y3, y4, '-', m1, m2, '-', d1, d2])
    else none
  | _ => none

/-- `parseDate(dateStr)`: falsy input or an unparseable date is absent. -/
def parseDate (o : Option JSVal) : Option String :=
  match o with
  | none => none
  | some v =>
    if !v.truthy then none
    else
      match v with
      | .str s => jsDateParse s
      | _ => none

/-! ## `parseDuration`

Four patterns tried in source order against the lower-cased
`String(duration)`, first match wins:
1. `/(\d+)\s*hrs?.*?(\d+)\s*mins?/`  → `h*60 + m`
2. `/(\d+):(\d+)(?::(\d+))?/`        → `h*60 + m` (seconds ignored)
3. `/(\d+)\s*mins?/`                 → `m`
4. `/(\d+)\s*hrs?/`                  → `h*60`

Each scanner below finds the leftmost (earliest start position) match.
As with the series patterns, greedy `\d+`/`\s*` never need to backtrack
here (shrinking them leaves a character of the same class where a
different class is required), so maximal munch at each start position is
exact; the lazy `.*?` between the hour and minute groups of pattern 1 is
a forward walk to the nearest minute group, which cannot step over a line
terminator. -/

/-- `(\d+)\s*<unit>` anchored at this position (input already lowercased;
the optional trailing `s` of `hrs?`/`mins?` constrains nothing). -/
def matchNumUnitAt (unit : List Char) (cs : List Char) : Option Nat :=
  match cs with
  | c :: _ =>
    if isDigitChar c then
      let r := (cs.dropWhile isDigitChar).dropWhile isSpaceChar
      if (dropPrefixCI unit r).isSome then some (digitsToNat (cs.takeWhile isDigitChar))
      else none
    else none
  | [] => none

/-- The lazy `.*?(\d+)\s*mins?` walk: nearest following minute group, not
crossing a character `.` cannot match. -/
def findMinGroup : List Char → Option Nat
  | [] => none
  | c :: rest =>
    match matchNumUnitAt ['m', 'i', 'n'] (c :: rest) with
    | some m => some m
    | none => if dotOK c then findMinGroup rest else none

/-- Pattern 1 anchored at this position: `(\d+)\s*hrs?.*?(\d+)\s*mins?`. -/
def matchHMAt (cs : List Char) : Option (Nat × Nat) :=
  match cs with
  | c :: _ =>
    if isDigitChar c then
      let r := (cs.dropWhile isDigitChar).dropWhile isSpaceChar
      match dropPrefixCI ['h', 'r'] r with
      | some r2 =>
        match findMinGroup r2 with
        | some m => some (digitsToNat (cs.takeWhile isDigitChar), m)
        | none => none
      | none => none
    else none
  | [] => none

/-- Pattern 2 anchored at this position: `(\d+):(\d+)(?::(\d+))?`
(the optional seconds group is dropped by the source). -/
def matchTimeAt (cs : List Char) : Option (Nat × Nat) :=
  match cs with
  | c :: _ =>
    if isDigitChar c then
      match cs.dropWhile isDigitChar with
      | ':' :: r2 =>
        match r2 with
        | d :: _ =>
          if isDigitChar d then
            some (digitsToNat (cs.takeWhile isDigitChar), digitsToNat (r2.takeWhile isDigitChar))
          else none
        | [] => none
      | _ => none
    else none
  | [] => none

/-- Leftmost match: try the anchored matcher at successive start positions. -/
def scanFirst {α : Type} (f : List Char → Option α) : List Char → Option α
  | [] => none
  | c :: rest =>
    match f (c :: rest) with
    | some x => some x
    | none => scanFirst f rest

/-- `parseDuration(duration)` of `audible-manager.ts`. -/
def parseDuration (o : Option JSVal) : Option Nat :=
  match o with
  | none => none
  | some v =>
    if !v.truthy then none
    else
      let cs := (jsToString v).toList.map Char.toLower
      match scanFirst matchHMAt cs with
      | some (h, m) => some (h * 60 + m)
      | none =>
        match scanFirst matchTimeAt cs with
        | some (h, m) => some (h * 60 + m)
        | none =>
          match scanFirst (matchNumUnitAt ['m', 'i', 'n']) cs with
          | some m => some m
          | none =>
            match scanFirst (matchNumUnitAt ['h', 'r']) cs with
            | some h => some (h * 60)
            | none => none

/-! ## The audiobook record and `normalizeLibationData` -/

/-- The `Audiobook` record as built by `normalizeLibationData` /
`addMissingBookPlaceholder` and stored in the `audiobooks` table.
Field order follows the TypeScript interface in
`src/server/src/types/index.ts`; the database-assigned `id` and the
timestamp columns live in the store model, not here.  `asin`, `title`,
`author` and `narrator` keep the dynamic (`JSVal`) type because the
normalizer passes raw cell values through unchecked. -/
structure Audiobook where
  asin : Option JSVal
  title : JSVal
  series_name : Option String
  series_position : Option ℚ
  author : Option JSVal
  narrator : Option JSVal
  owned : Bool
  listened : Bool
  release_date : Option String
  purchase_date : Option String
  rating : Option ℚ
  length_minutes : Option Nat
deriving DecidableEq

/-- Alias lists of `normalizeLibationData` (`possibleColumns`), in source
order.  The `categories` aliases are looked up by the source but the
collected value is dropped by the TypeScript record, so they are omitted. -/
def asinAliases : List String := ["ASIN", "asin", "Asin"]

def titleAliases : List String := ["Title", "title", "BookTitle", "Product Name"]

def authorAliases : List String := ["Author", "author", "Authors", "By"]

def narratorAliases : List String := ["Narrator", "narrator", "Narrated By"]

def seriesAliases : List String := ["Series", "series", "Series Name"]

def seriesPositionAliases : List String := ["Series Position", "Book #", "Book", "#"]

def releaseDateAliases : List String := ["Release Date", "Publication Date", "Date Added"]

def purchaseDateAliases : List String := ["Purchase Date", "Date Purchased", "Added"]

def lengthAliases : List String := ["Length", "Duration", "Runtime"]

def ratingAliases : List String := ["Rating", "My Rating", "Overall Rating"]

/-- `normalizeLibationData(row)` of `audible-manager.ts`.  The only
reachable throw site is `cleanSeriesName` (string methods applied to the
raw series cell); every other field parser is total. -/
def normalizeLibationData (row : Row) : Except JSErr Audiobook :=
  match cleanSeriesName (firstMatch row seriesAliases) with
  | .error e => .error e
  | .ok sname =>
    .ok {
      asin := jsOrUndef (firstMatch row asinAliases)
      title := jsOr (firstMatch row titleAliases) (.str "Unknown Title")
      series_name := sname
      series_position := parseSeriesPosition (firstMatch row seriesPositionAliases)
      author := jsOrUndef (firstMatch row authorAliases)
      narrator := jsOrUndef (firstMatch row narratorAliases)
      owned := true
      listened := false
      release_date := parseDate (firstMatch row releaseDateAliases)
      purchase_date := parseDate (firstMatch row purchaseDateAliases)
      rating := parseRating (firstMatch row ratingAliases)
      length_minutes := parseDuration (firstMatch row lengthAliases) }

/-- `normalizeLibationData(row)` of the legacy duplicate
`src/unnamed/part_000` (`EnhancedAudibleManager`), modelled only where it
diverges from the TypeScript service: `author` defaults to the string
`'Unknown Author'` instead of `undefined` (its JS `null` results and the
`categories` pass-through, which has no column in the modelled schema,
are identified with the absent value). -/
def normalizeLibationDataLegacy (row : Row) : Except JSErr Audiobook :=
  match cleanSeriesName (firstMatch row seriesAliases) with
  | .error e => .error e
  | .ok sname =>
    .ok {
      asin := jsOrUndef (firstMatch row asinAliases)
      title := jsOr (firstMatch row titleAliases) (.str "Unknown Title")
      series_name := sname
      series_position := parseSeriesPosition (firstMatch row seriesPositionAliases)
      author := some (jsOr (firstMatch row authorAliases) (.str "Unknown Author"))
      narrator := jsOrUndef (firstMatch row narratorAliases)
      owned := true
      listened := false
      release_date := parseDate (firstMatch row releaseDateAliases)
      purchase_date := parseDate (firstMatch row purchaseDateAliases)
      rating := parseRating (firstMatch row ratingAliases)
      length_minutes := parseDuration (firstMatch row lengthAliases) }

/-! ## The store: `audiobooks` table and `INSERT OR REPLACE` -/

/-- The `audiobooks` table: stored rows `(rowid, record)` plus the
`AUTOINCREMENT` counter (strictly larger than every rowid ever used). -/
structure DBState where
  rows : List (Nat × Audiobook)
  nextId : Nat
deriving DecidableEq

/-- A fresh database (SQLite rowids start at 1). -/
def emptyDB : DBState := ⟨[], 1⟩

/-- `upsertAudiobook(bookData)`: `INSERT OR REPLACE INTO audiobooks
(asin, title, ...) VALUES (...)` against a table whose only applicable
uniqueness constraint is `asin TEXT UNIQUE`.  A non-`NULL` `asin` equal to
a stored row's `asin` deletes that row; `NULL` `asin`s never conflict.
The inserted row always receives a fresh autoincrement `id`, which the
source returns as `result.lastID`. -/
def upsertAudiobook (b : Audiobook) (s : DBState) : Nat × DBState :=
  let kept := match b.asin with
    | none => s.rows
    | some a => s.rows.filter (fun r => decide (r.2.asin ≠ some a))
  (s.nextId, ⟨kept ++ [(s.nextId, b)], s.nextId + 1⟩)

/-- `getMissingBooksCount()`: `SELECT COUNT(*) FROM audiobooks WHERE owned = 0`. -/
def getMissingBooksCount (s : DBState) : Nat :=
  (s.rows.filter (fun r => r.2.owned == false)).length

/-- `markAsListened(bookId)`: `UPDATE audiobooks SET listened = 1 WHERE
id = ?`; returns whether any row changed. -/
def markAsListened (bookId : Nat) (s : DBState) : Bool × DBState :=
  (s.rows.any (fun r => r.1 == bookId),
   ⟨s.rows.map (fun r => if r.1 = bookId then (r.1, { r.2 with listened := true }) else r),
    s.nextId⟩)

/-! ## Series reconciliation: `detectMissingSeriesBooks`

`for (let pos = current + 1; pos < next; pos++)` starts at `current + 1`
and steps by `1`, so it visits `current + 1, current + 2, ...` while below
`next`; the iteration count is `⌈next - current⌉ - 1` (`gapPositions_eq_loop`
below re-derives the loop recurrence).  The same loop shape with start `1`
serves the leading-gap pass (`gapPositions 0 firstPos`).  JS `Array#sort`
with the comparator `(a, b) => (a.series_position || 0) - (b.series_position || 0)`
is a stable ascending sort by that key (ES2019 requires stability); any
stable sort by a total preorder is the same function, so a stable insertion
sort is used. -/

/-- The positions visited by `for (let pos = c + 1; pos < n; pos++)`. -/
def gapPositions (c n : ℚ) : List ℚ :=
  (List.range (⌈n - c⌉ - 1).toNat).map (fun (i : ℕ) => c + 1 + (i : ℚ))

/-- The interior-gap pass over the sorted position list: for each adjacent
pair, `if (next - current > 1)` run the gap loop. -/
def interiorGaps : List ℚ → List ℚ
  | c :: n :: rest => (if 1 < n - c then gapPositions c n else []) ++ interiorGaps (n :: rest)
  | _ => []

/-- The leading-gap pass: `if (firstPos > 1) for (let pos = 1; pos < firstPos; pos++)`. -/
def leadingGaps : List ℚ → List ℚ
  | f :: _ => if 1 < f then gapPositions 0 f else []
  | [] => []

/-- The sort key `(a.series_position || 0)`. -/
def posKey (b : Audiobook) : ℚ := b.series_position.getD 0

/-- Stable insertion into a key-sorted list (an element is placed before
every element of equal key, preserving input order among ties). -/
def insertByPos (x : Audiobook) : List Audiobook → List Audiobook
  | [] => [x]
  | y :: ys => if posKey y < posKey x then y :: insertByPos x ys else x :: y :: ys

/-- Stable ascending sort by `posKey`, the effect of the source's
`.sort((a, b) => (a.series_position || 0) - (b.series_position || 0))`. -/
def sortByPos : List Audiobook → List Audiobook
  | [] => []
  | x :: xs => insertByPos x (sortByPos xs)

/-- The record built by `addMissingBookPlaceholder(seriesName, position,
author)` (the fields the source omits are `undefined`, bound as SQL `NULL`). -/
def addMissingBookPlaceholder (seriesName : String) (position : ℚ)
    (author : Option JSVal) : Audiobook :=
  { asin := none
    title := .str (seriesName ++ " Book " ++ jsNumToString position)
    series_name := some seriesName
    series_position := some position
    author := author
    narrator := none
    owned := false
    listened := false
    release_date := none
    purchase_date := none
    rating := none
    length_minutes := none }

/-- The placeholders `detectMissingSeriesBooks` synthesizes for one series
group `(seriesName, books)`, in upsert order: skip groups of fewer than 2
records, filter to defined positions, sort, skip if fewer than 2 remain,
then the interior-gap pass followed by the leading-gap pass, each
placeholder carrying `books[0].author` (the group's first record in input
order, not sorted order). -/
def groupPlaceholders (seriesName : String) (books : List Audiobook) : List Audiobook :=
  match books with
  | [] => []
  | b0 :: _ =>
    if books.length < 2 then []
    else
      let sorted := sortByPos (books.filter (fun b => b.series_position.isSome))
      if sorted.length < 2 then []
      else
        let ps := sorted.map posKey
        (interiorGaps ps ++ leadingGaps ps).map
          (fun p => addMissingBookPlaceholder seriesName p b0.author)

/-- `detectMissingSeriesBooks(seriesMap)`: the placeholders of every group,
in map iteration (insertion) order. -/
def detectMissingSeriesBooks (seriesMap : List (String × List Audiobook)) : List Audiobook :=
  seriesMap.flatMap (fun g => groupPlaceholders g.1 g.2)

/-! ## `parseLibationExport` -/

/-- The series tracking of `parseLibationExport`: a JS `Map` keyed by
`series_name` (iteration follows key insertion order), with each book
appended to its series bucket; rows whose `series_name` is falsy
(`undefined` or the empty string a degenerate cleaning can produce) are
not tracked. -/
def addToSeriesMap (m : List (String × List Audiobook)) (name : String)
    (b : Audiobook) : List (String × List Audiobook) :=
  if m.any (fun g => g.1 == name) then
    m.map (fun g => if g.1 == name then (g.1, g.2 ++ [b]) else g)
  else m ++ [(name, [b])]

/-- Build the `seriesMap` from the normalized books, in row order. -/
def buildSeriesMap (books : List Audiobook) : List (String × List Audiobook) :=
  books.foldl (fun m b =>
    match b.series_name with
    | some s => if s = "" then m else addToSeriesMap m s b
    | none => m) []

/-- The summary `parseLibationExport` returns on success. -/
structure IngestSummary where
  processed : Nat
  series : Nat
  missingBooksFound : Nat
deriving DecidableEq

/-- The row loop of `parseLibationExport`: normalize each row in order; a
row-level throw propagates and aborts the whole batch. -/
def normalizeAll : List Row → Except JSErr (List Audiobook)
  | [] => .ok []
  | r :: rest =>
    match normalizeLibationData r with
    | .error e => .error e
    | .ok b =>
      match normalizeAll rest with
      | .error e => .error e
      | .ok bs => .ok (b :: bs)

/-- `parseLibationExport` on the rows of the export's first sheet:
normalize every row (a row-level throw aborts the batch), upsert every
normalized book, run gap detection over the series map, and report
`processed`, `series`, and `missingBooksFound =` the post-ingestion
unowned count. -/
def parseLibationExport (data : List Row) (s : DBState) :
    Except JSErr (IngestSummary × DBState) :=
  match normalizeAll data with
  | .error e => .error e
  | .ok books =>
    let seriesMap := buildSeriesMap books
    let s1 := books.foldl (fun st b => (upsertAudiobook b st).2) s
    let s2 := (detectMissingSeriesBooks seriesMap).foldl
      (fun st b => (upsertAudiobook b st).2) s1
    .ok ({ processed := books.length, series := seriesMap.length,
           missingBooksFound := getMissingBooksCount s2 }, s2)

/-! ## Supporting lemmas -/

/-- The closed form of `gapPositions` satisfies the recurrence of the
source loop `for (let pos = c + 1; pos < n; pos++)`. -/
theorem gapPositions_eq_loop (c n : ℚ) :
    gapPositions c n = if c + 1 < n then (c + 1) :: gapPositions (c + 1) n else [] := by
  by_cases h : c + 1 < n
  · have h2 : (1 : ℤ) < ⌈n - c⌉ := Int.lt_ceil.mpr (by push_cast; linarith)
    have hsub : ⌈n - (c + 1)⌉ = ⌈n - c⌉ - 1 := by
      rw [show n - (c + 1) = (n - c) - 1 by ring, Int.ceil_sub_one]
    have hk : (⌈n - c⌉ - 1).toNat = (⌈n - (c + 1)⌉ - 1).toNat + 1 := by omega
    rw [if_pos h, gapPositions, gapPositions, hk, List.range_succ_eq_map, List.map_cons,
      List.map_map]
    refine congrArg₂ List.cons (by norm_num) ?_
    refine List.map_congr_left (fun i _ => ?_)
    simp only [Function.comp_apply]
    push_cast
    ring
  · have h2 : ⌈n - c⌉ ≤ 1 := Int.ceil_le.mpr (by push_cast; linarith)
    have hk : (⌈n - c⌉ - 1).toNat = 0 := by omega
    rw [if_neg h, gapPositions, hk]
    rfl

/-- Membership in the gap loop's visited positions: exactly the values
`c + 1 + k` (integer step count `k ≥ 0`) strictly below `n`. -/
theorem mem_gapPositions {c n q : ℚ} :
    q ∈ gapPositions c n ↔ ∃ k : ℕ, q = c + 1 + (k : ℚ) ∧ q < n := by
  constructor
  · intro hq
    obtain ⟨i, hi, hq⟩ := List.mem_map.mp hq
    have hi' := List.mem_range.mp hi
    have h1 : (i : ℤ) < ⌈n - c⌉ - 1 := Int.lt_toNat.mp hi'
    have h3 : (((i : ℤ) + 1 : ℤ) : ℚ) < n - c := Int.lt_ceil.mp (by omega)
    push_cast at h3
    exact ⟨i, hq.symm, by rw [← hq]; linarith⟩
  · rintro ⟨k, rfl, hlt⟩
    have h3 : ((k : ℤ) + 1 : ℤ) < ⌈n - c⌉ := Int.lt_ceil.mpr (by push_cast; linarith)
    have h4 : (k : ℤ) < ⌈n - c⌉ - 1 := by omega
    exact List.mem_map.mpr ⟨k, List.mem_range.mpr (Int.lt_toNat.mpr h4), rfl⟩

/-- Membership in the interior-gap pass: a position is synthesized exactly
when some adjacent pair of the sorted position list has a gap exceeding 1
and the loop visits it. -/
theorem mem_interiorGaps : ∀ (ps : List ℚ) (q : ℚ),
    q ∈ interiorGaps ps ↔
      ∃ pr ∈ ps.zip ps.tail, 1 < pr.2 - pr.1 ∧ q ∈ gapPositions pr.1 pr.2
  | [], q => by simp [interiorGaps]
  | [x], q => by simp [interiorGaps]
  | x :: y :: rest, q => by
    have ih := mem_interiorGaps (y :: rest) q
    rw [interiorGaps, List.mem_append, ih]
    simp only [List.tail_cons, List.zip_cons_cons, List.mem_cons]
    constructor
    · rintro (hq | ⟨pr, hpr, h1, h2⟩)
      · by_cases hxy : 1 < y - x
        · rw [if_pos hxy] at hq
          exact ⟨(x, y), Or.inl rfl, hxy, hq⟩
        · rw [if_neg hxy] at hq
          exact absurd hq (List.not_mem_nil q)
      · exact ⟨pr, Or.inr hpr, h1, h2⟩
    · rintro ⟨pr, hpr | hpr, h1, h2⟩
      · subst hpr
        exact Or.inl (by rw [if_pos h1]; exact h2)
      · exact Or.inr ⟨pr, hpr, h1, h2⟩

theorem length_insertByPos (x : Audiobook) (l : List Audiobook) :
    (insertByPos x l).length = l.length + 1 := by
  induction l with
  | nil => rfl
  | cons y ys ih =>
    by_cases h : posKey y < posKey x <;> simp [insertByPos, h, ih]

theorem length_sortByPos (l : List Audiobook) :
    (sortByPos l).length = l.length := by
  induction l with
  | nil => rfl
  | cons x xs ih => simp [sortByPos, length_insertByPos, ih]

theorem mem_insertByPos {y x : Audiobook} {l : List Audiobook} :
    y ∈ insertByPos x l ↔ y = x ∨ y ∈ l := by
  induction l with
  | nil => simp [insertByPos]
  | cons z zs ih =>
    by_cases h : posKey z < posKey x
    · simp only [insertByPos, if_pos h, List.mem_cons, ih]
      tauto
    · simp only [insertByPos, if_neg h, List.mem_cons]

theorem mem_sortByPos {x : Audiobook} {l : List Audiobook} :
    x ∈ sortByPos l ↔ x ∈ l := by
  induction l with
  | nil => simp [sortByPos]
  | cons y ys ih => simp [sortByPos, mem_insertByPos, ih]

theorem pairwise_insertByPos {x : Audiobook} {l : List Audiobook}
    (hl : l.Pairwise (fun a b => posKey a ≤ posKey b)) :
    (insertByPos x l).Pairwise (fun a b => posKey a ≤ posKey b) := by
  induction l with
  | nil => simp [insertByPos]
  | cons z zs ih =>
    rcases List.pairwise_cons.mp hl with ⟨hz, hzs⟩
    by_cases h : posKey z < posKey x
    · rw [insertByPos, if_pos h]
      refine List.pairwise_cons.mpr ⟨?_, ih hzs⟩
      intro w hw
      rcases mem_insertByPos.mp hw with rfl | hw
      · exact le_of_lt h
      · exact hz w hw
    · rw [insertByPos, if_neg h]
      refine List.pairwise_cons.mpr ⟨?_, hl⟩
      intro w hw
      rcases List.mem_cons.mp hw with rfl | hw
      · exact le_of_not_lt h
      · exact le_trans (le_of_not_lt h) (hz w hw)

theorem pairwise_sortByPos (l : List Audiobook) :
    (sortByPos l).Pairwise (fun a b => posKey a ≤ posKey b) := by
  induction l with
  | nil => simp [sortByPos]
  | cons x xs ih => exact pairwise_insertByPos ih

/-- The head of the sorted list is a member of minimal key. -/
theorem sortByPos_head_min {l : List Audiobook} {h : Audiobook} {t : List Audiobook}
    (hs : sortByPos l = h :: t) : h ∈ l ∧ ∀ y ∈ l, posKey h ≤ posKey y := by
  have hmem : h ∈ l := mem_sortByPos.mp (hs ▸ List.mem_cons_self h t)
  refine ⟨hmem, fun y hy => ?_⟩
  have hy' : y ∈ sortByPos l := mem_sortByPos.mpr hy
  rw [hs] at hy'
  rcases List.mem_cons.mp hy' with rfl | hy'
  · exact le_refl _
  · have hp := pairwise_sortByPos l
    rw [hs] at hp
    exact (List.pairwise_cons.mp hp).1 y hy'

/-- The keys of the position-filtered list are exactly the defined
positions, in order. -/
theorem map_posKey_filter (books : List Audiobook) :
    (books.filter (fun b => b.series_position.isSome)).map posKey
      = books.filterMap (fun b => b.series_position) := by
  induction books with
  | nil => rfl
  | cons b bs ih =>
    cases hb : b.series_position with
    | none => simp [List.filter_cons, List.filterMap_cons, hb, ih]
    | some q => simp [List.filter_cons, List.filterMap_cons, hb, ih, posKey]

/-- Every record `normalizeLibationData` returns has `listened = false`
and `owned = true`. -/
theorem normalizeLibationData_flags {row : Row} {r : Audiobook}
    (h : normalizeLibationData row = .ok r) : r.listened = false ∧ r.owned = true := by
  unfold normalizeLibationData at h
  cases hcs : cleanSeriesName (firstMatch row seriesAliases) with
  | error e => rw [hcs] at h; exact absurd h (by simp)
  | ok sname =>
    rw [hcs] at h
    cases h
    exact ⟨rfl, rfl⟩

/-! ## Concrete fixtures

Small concrete inputs used to instantiate the claims: a generic in-series
book, and the rows of the spec's ingestion scenarios. -/

/-- A real (owned) record of series `"S"` at the given position, as the
normalizer would produce it from a minimal row. -/
def sampleBook (pos : ℚ) : Audiobook :=
  { asin := none
    title := .str "T"
    series_name := some "S"
    series_position := some pos
    author := some (.str "A")
    narrator := none
    owned := true
    listened := false
    release_date := none
    purchase_date := none
    rating := none
    length_minutes := none }

/-- One export row of series `"Foo"`: title, position cell, ASIN. -/
def fooRow (t p a : String) : Row :=
  [("ASIN", .str a), ("Title", .str t), ("Author", .str "Foo Author"),
   ("Series", .str "Foo"), ("Series Position", .str p)]

/-- The record `normalizeLibationData` produces from `fooRow`. -/
def fooBook (t : String) (p : ℚ) (a : String) : Audiobook :=
  { asin := some (.str a)
    title := .str t
    series_name := some "Foo"
    series_position := some p
    author := some (.str "Foo Author")
    narrator := none
    owned := true
    listened := false
    release_date := none
    purchase_date := none
    rating := none
    length_minutes := none }

theorem cleanSeriesName_Foo : cleanSeriesName (some (.str "Foo")) = .ok (some "Foo") := by
  decide

theorem parseSeriesPosition_str_one : parseSeriesPosition (some (.str "1")) = some 1 := by
  have h : scanDecimal ['1'] = some (['1'], []) := by decide
  norm_num [parseSeriesPosition, jsToString, JSVal.truthy, h, ratOfDigits, digitsToNat]
  decide

theorem parseSeriesPosition_str_two : parseSeriesPosition (some (.str "2")) = some 2 := by
  have h : scanDecimal ['2'] = some (['2'], []) := by decide
  norm_num [parseSeriesPosition, jsToString, JSVal.truthy, h, ratOfDigits, digitsToNat]
  decide

theorem parseSeriesPosition_str_three : parseSeriesPosition (some (.str "3")) = some 3 := by
  have h : scanDecimal ['3'] = some (['3'], []) := by decide
  norm_num [parseSeriesPosition, jsToString, JSVal.truthy, h, ratOfDigits, digitsToNat]
  decide

theorem parseSeriesPosition_str_four : parseSeriesPosition (some (.str "4")) = some 4 := by
  have h : scanDecimal ['4'] = some (['4'], []) := by decide
  norm_num [parseSeriesPosition, jsToString, JSVal.truthy, h, ratOfDigits, digitsToNat]
  decide

theorem jsNumToString_two : jsNumToString 2 = "2" := by
  norm_num [jsNumToString, jsNumToStringNonneg]
  decide

theorem jsNumToString_three : jsNumToString 3 = "3" := by
  norm_num [jsNumToString, jsNumToStringNonneg]
  decide

/-- Evaluation of the normalizer on a `fooRow`. -/
theorem normalize_fooRow (t p a : String) (q : ℚ)
    (ht : t ≠ "") (hpne : p ≠ "") (ha : a ≠ "")
    (hp : parseSeriesPosition (some (.str p)) = some q) :
    normalizeLibationData (fooRow t p a) = .ok (fooBook t q a) := by
  simp [normalizeLibationData, fooRow, fooBook, firstMatch, rowGet, presentCell,
    seriesAliases, asinAliases, titleAliases, authorAliases, narratorAliases,
    seriesPositionAliases, releaseDateAliases, purchaseDateAliases, ratingAliases,
    lengthAliases, jsOrUndef, jsOr, JSVal.truthy, parseDate, parseRating, parseDuration,
    ht, hpne, ha, hp, cleanSeriesName_Foo]

/-- The spec's §8 ingestion scenario: one series, positions 1, 2, 4. -/
def fooRows : List Row := [fooRow "B1" "1" "A1", fooRow "B2" "2" "A2", fooRow "B4" "4" "A4"]

def fooPlaceholder : Audiobook := addMissingBookPlaceholder "Foo" 3 (some (.str "Foo Author"))

/-- The stored state after ingesting `fooRows` into an empty database. -/
def fooDBOnce : DBState :=
  ⟨[(1, fooBook "B1" 1 "A1"), (2, fooBook "B2" 2 "A2"), (3, fooBook "B4" 4 "A4"),
    (4, fooPlaceholder)], 5⟩

/-- A two-row export (positions 1 and 3) used for the re-ingestion claims. -/
def dupRows : List Row := [fooRow "B1" "1" "A1", fooRow "B3" "3" "A3"]

def dupPlaceholder : Audiobook := addMissingBookPlaceholder "Foo" 2 (some (.str "Foo Author"))

/-- The stored state after ingesting `dupRows` once into an empty database. -/
def dupDBOnce : DBState :=
  ⟨[(1, fooBook "B1" 1 "A1"), (2, fooBook "B3" 3 "A3"), (3, dupPlaceholder)], 4⟩

/-- The stored state after ingesting `dupRows` a second time: the two real
records were replaced (fresh rowids 4 and 5), while the placeholder at
position 2 was inserted again (`NULL` `asin` conflicts with nothing),
leaving two copies of it. -/
def dupDBTwice : DBState :=
  ⟨[(3, dupPlaceholder), (4, fooBook "B1" 1 "A1"), (5, fooBook "B3" 3 "A3"),
    (6, dupPlaceholder)], 7⟩

/-! ## Claim theorems -/

/-- C9: `parseDuration` tries the four duration patterns in source order
against the lower-cased raw string with first match winning:
`"5 hrs 30 mins"` → 330 (pattern 1 beats the also-matching pattern 3),
`"1:45:00"` → 105 (seconds ignored), `"42 mins"` → 42, and a bare number
`"90"` matches no pattern and is absent; `"1:30 mins"` → 90 shows
pattern 2 beating pattern 3, `"90 mins 2 hrs"` → 90 shows pattern 3
beating pattern 4. -/
theorem parseDuration_pattern_priority :
    parseDuration (some (.str "5 hrs 30 mins")) = some 330
    ∧ parseDuration (some (.str "1:45:00")) = some 105
    ∧ parseDuration (some (.str "42 mins")) = some 42
    ∧ parseDuration (some (.str "90")) = none
    ∧ parseDuration (some (.str "1:30 mins")) = some 90
    ∧ parseDuration (some (.str "90 mins 2 hrs")) = some 90 := by
  refine ⟨by decide, by decide, by decide, by decide, by decide, by decide⟩

/-- C3: `normalizeLibationData` is NOT total on rows of arbitrary scalar
values: a truthy numeric `Series` cell reaches `series.trim()` in
`cleanSeriesName` and throws `TypeError` (the claim promises an absent
value instead).  The same row with the series cell as a string
normalizes fine, showing the throw is specific to the non-string value. -/
theorem normalize_throws_on_numeric_series :
    normalizeLibationData [("Title", .str "X"), ("Series", .num 42)] = .error .typeError
    ∧ normalizeLibationData [("Title", .str "X"), ("Series", .str "42")] ≠
        .error .typeError := by
  refine ⟨by decide, by decide⟩

/-- C5: a series group with fewer than 2 records, or fewer than 2 records
with a defined position, synthesizes no placeholders; in particular a
single record at position 2 produces none. -/
theorem small_groups_no_placeholders :
    (∀ (name : String) (books : List Audiobook),
        books.length < 2 ∨ (books.filter (fun b => b.series_position.isSome)).length < 2 →
        groupPlaceholders name books = [])
    ∧ groupPlaceholders "S" [sampleBook 2] = [] := by
  constructor
  · intro name books h
    cases books with
    | nil => rfl
    | cons b0 rest =>
      simp only [groupPlaceholders]
      by_cases h1 : (b0 :: rest).length < 2
      · rw [if_pos h1]
      · rw [if_neg h1]
        have h2 : ((b0 :: rest).filter (fun b => b.series_position.isSome)).length < 2 := by
          rcases h with h | h
          · exact absurd h h1
          · exact h
        rw [if_pos (by rw [length_sortByPos]; exact h2)]
  · simp [groupPlaceholders, sampleBook]

/-- C5 witness: the empty group synthesizes nothing. -/
theorem small_groups_no_placeholders_witness :
    groupPlaceholders "X" [] = [] :=
  small_groups_no_placeholders.1 "X" [] (Or.inl (by decide))

/-- C6: every placeholder synthesized for a group has `owned = false`,
`listened = false`, no `asin`, no dates, no rating, no duration, the
series name of its group, a title `"<seriesName> Book <position>"`, and
the author of the group's first record (in input order). -/
theorem placeholder_record_shape :
    ∀ (name : String) (books : List Audiobook) (p : Audiobook),
      p ∈ groupPlaceholders name books →
      p.owned = false ∧ p.listened = false ∧ p.asin = none ∧ p.release_date = none
      ∧ p.purchase_date = none ∧ p.rating = none ∧ p.length_minutes = none
      ∧ p.series_name = some name
      ∧ (∃ q : ℚ, p.series_position = some q
          ∧ p.title = .str (name ++ " Book " ++ jsNumToString q))
      ∧ ∃ b0 rest, books = b0 :: rest ∧ p.author = b0.author := by
  intro name books p hp
  cases books with
  | nil => exact absurd hp (by simp [groupPlaceholders])
  | cons b0 rest =>
    simp only [groupPlaceholders] at hp
    by_cases h1 : (b0 :: rest).length < 2
    · rw [if_pos h1] at hp
      exact absurd hp (List.not_mem_nil p)
    · rw [if_neg h1] at hp
      by_cases h2 :
          (sortByPos ((b0 :: rest).filter (fun b => b.series_position.isSome))).length < 2
      · rw [if_pos h2] at hp
        exact absurd hp (List.not_mem_nil p)
      · rw [if_neg h2] at hp
        obtain ⟨q, _, rfl⟩ := List.mem_map.mp hp
        exact ⟨rfl, rfl, rfl, rfl, rfl, rfl, rfl, rfl, ⟨q, rfl, rfl⟩, b0, rest, rfl, rfl⟩

/-- C6 witness: the placeholder synthesized for the group `{1, 3}` of
series `"S"` has the claimed shape. -/
theorem placeholder_record_shape_witness :
    (addMissingBookPlaceholder "S" 2 (some (.str "A"))).owned = false
    ∧ (addMissingBookPlaceholder "S" 2 (some (.str "A"))).listened = false
    ∧ (addMissingBookPlaceholder "S" 2 (some (.str "A"))).asin = none
    ∧ (addMissingBookPlaceholder "S" 2 (some (.str "A"))).release_date = none
    ∧ (addMissingBookPlaceholder "S" 2 (some (.str "A"))).purchase_date = none
    ∧ (addMissingBookPlaceholder "S" 2 (some (.str "A"))).rating = none
    ∧ (addMissingBookPlaceholder "S" 2 (some (.str "A"))).length_minutes = none
    ∧ (addMissingBookPlaceholder "S" 2 (some (.str "A"))).series_name = some "S"
    ∧ (∃ q : ℚ, (addMissingBookPlaceholder "S" 2 (some (.str "A"))).series_position = some q
        ∧ (addMissingBookPlaceholder "S" 2 (some (.str "A"))).title =
            .str ("S" ++ " Book " ++ jsNumToString q))
    ∧ ∃ b0 rest, [sampleBook 1, sampleBook 3] = b0 :: rest
        ∧ (addMissingBookPlaceholder "S" 2 (some (.str "A"))).author = b0.author := by
  have hr1 : List.range 1 = [0] := rfl
  have heval : groupPlaceholders "S" [sampleBook 1, sampleBook 3]
      = [addMissingBookPlaceholder "S" 2 (some (.str "A"))] := by
    simp [groupPlaceholders, sampleBook, sortByPos, insertByPos, posKey, interiorGaps,
      leadingGaps, gapPositions, hr1]
    norm_num [hr1]
  exact placeholder_record_shape "S" [sampleBook 1, sampleBook 3]
    (addMissingBookPlaceholder "S" 2 (some (.str "A")))
    (heval ▸ List.mem_singleton.mpr rfl)

/-- C2 counterexample: for a series group with positions `{1, 1.5, 3}` the
engine synthesizes exactly one placeholder, at position `2.5` — not at
the integer `2` the claim asserts, and `2.5` is not integer-valued
(its fractional part is nonzero), refuting "only at integer-valued
positions" and "synthesizes position 2 regardless of the 1.5 entry". -/
theorem interior_gap_fractional_counterexample :
    groupPlaceholders "S" [sampleBook 1, sampleBook (3/2), sampleBook 3]
      = [addMissingBookPlaceholder "S" (5/2) (some (.str "A"))]
    ∧ some (2 : ℚ) ∉ (groupPlaceholders "S"
        [sampleBook 1, sampleBook (3/2), sampleBook 3]).map (fun p => p.series_position)
    ∧ Int.fract ((5 : ℚ)/2) ≠ 0 := by
  have hr1 : List.range 1 = [0] := rfl
  have h3 : ⌈(3 : ℚ)/2⌉ = 2 := by
    rw [Int.ceil_eq_iff]
    norm_num
  have ht : Int.toNat 2 = 2 := rfl
  have heval : groupPlaceholders "S" [sampleBook 1, sampleBook (3/2), sampleBook 3]
      = [addMissingBookPlaceholder "S" (5/2) (some (.str "A"))] := by
    norm_num [groupPlaceholders, sampleBook, sortByPos, insertByPos, posKey, interiorGaps,
      leadingGaps, gapPositions, h3, ht, hr1]
  refine ⟨heval, ?_, ?_⟩
  · rw [heval]
    simp [addMissingBookPlaceholder]
    norm_num
  · have hf : ⌊(5 : ℚ)/2⌋ = 2 := by
      rw [Int.floor_eq_iff]
      norm_num
    rw [Int.fract, hf]
    norm_num

/-- C2 (amended): for each adjacent pair `(current, next)` of the sorted
position list with `next - current > 1`, the loop synthesizes the
positions `current + 1, current + 2, ...` (unit steps from `current`)
strictly below `next` — these are integers exactly when `current` is;
`{1, 3, 5}` yields placeholders exactly at `{2, 4}` with `owned = false`,
while `{1, 1.5, 3}` yields the single fractional position `2.5`. -/
theorem interior_gap_unit_steps :
    (∀ (ps : List ℚ) (q : ℚ),
        q ∈ interiorGaps ps ↔
          ∃ pr ∈ ps.zip ps.tail, 1 < pr.2 - pr.1 ∧
            ∃ k : ℕ, q = pr.1 + 1 + (k : ℚ) ∧ q < pr.2)
    ∧ groupPlaceholders "S" [sampleBook 1, sampleBook 3, sampleBook 5]
        = [addMissingBookPlaceholder "S" 2 (some (.str "A")),
           addMissingBookPlaceholder "S" 4 (some (.str "A"))]
    ∧ (addMissingBookPlaceholder "S" 2 (some (.str "A"))).owned = false
    ∧ (addMissingBookPlaceholder "S" 4 (some (.str "A"))).owned = false
    ∧ groupPlaceholders "S" [sampleBook 1, sampleBook (3/2), sampleBook 3]
        = [addMissingBookPlaceholder "S" (5/2) (some (.str "A"))] := by
  refine ⟨?_, ?_, rfl, rfl, ?_⟩
  · intro ps q
    rw [mem_interiorGaps]
    simp only [mem_gapPositions]
  · have hr1 : List.range 1 = [0] := rfl
    simp [groupPlaceholders, sampleBook, sortByPos, insertByPos, posKey, interiorGaps,
      leadingGaps, gapPositions, hr1]
    norm_num [hr1]
  · have hr1 : List.range 1 = [0] := rfl
    have h3 : ⌈(3 : ℚ)/2⌉ = 2 := by
      rw [Int.ceil_eq_iff]
      norm_num
    have ht : Int.toNat 2 = 2 := rfl
    norm_num [groupPlaceholders, sampleBook, sortByPos, insertByPos, posKey, interiorGaps,
      leadingGaps, gapPositions, h3, ht, hr1]

/-- C4: when the smallest defined position of a group with at least 2
positioned records exceeds 1, the leading-gap pass synthesizes a
placeholder at every integer position from 1 up to (but not including)
that smallest position; the group `{3, 4}` yields exactly `{1, 2}`. -/
theorem leading_gap_placeholders :
    (∀ (name : String) (books : List Audiobook) (f : ℚ),
        f ∈ books.filterMap (fun b => b.series_position) →
        (∀ q ∈ books.filterMap (fun b => b.series_position), f ≤ q) →
        2 ≤ (books.filter (fun b => b.series_position.isSome)).length →
        1 < f →
        ∀ k : ℕ, 1 ≤ k → (k : ℚ) < f →
          ∃ p ∈ groupPlaceholders name books, p.series_position = some (k : ℚ))
    ∧ groupPlaceholders "S" [sampleBook 3, sampleBook 4]
        = [addMissingBookPlaceholder "S" 1 (some (.str "A")),
           addMissingBookPlaceholder "S" 2 (some (.str "A"))] := by
  constructor
  · intro name books f hf hmin h2 hf1 k hk1 hkf
    obtain ⟨b0, rest, rfl⟩ : ∃ b0 rest, books = b0 :: rest := by
      cases books with
      | nil => simp at h2
      | cons b0 rest => exact ⟨b0, rest, rfl⟩
    have hlenb : ¬ (b0 :: rest).length < 2 := by
      have := List.length_filter_le (fun b => b.series_position.isSome) (b0 :: rest)
      omega
    have hslen : (sortByPos ((b0 :: rest).filter (fun b => b.series_position.isSome))).length
        = ((b0 :: rest).filter (fun b => b.series_position.isSome)).length :=
      length_sortByPos _
    have hs2 : ¬ (sortByPos ((b0 :: rest).filter
        (fun b => b.series_position.isSome))).length < 2 := by omega
    obtain ⟨h, t, hht⟩ : ∃ h t,
        sortByPos ((b0 :: rest).filter (fun b => b.series_position.isSome)) = h :: t := by
      cases hsp : sortByPos ((b0 :: rest).filter (fun b => b.series_position.isSome)) with
      | nil => rw [hsp] at hs2; simp at hs2
      | cons h t => exact ⟨h, t, rfl⟩
    have hmin' := sortByPos_head_min hht
    have hmapf : (((b0 :: rest).filter (fun b => b.series_position.isSome)).map posKey)
        = (b0 :: rest).filterMap (fun b => b.series_position) := map_posKey_filter _
    have hhf : posKey h = f := by
      have hf' : f ∈ ((b0 :: rest).filter (fun b => b.series_position.isSome)).map posKey := by
        rw [hmapf]; exact hf
      obtain ⟨y, hy, hyf⟩ := List.mem_map.mp hf'
      have hle : posKey h ≤ f := hyf ▸ hmin'.2 y hy
      have hge : f ≤ posKey h := by
        apply hmin
        rw [← hmapf]
        exact List.mem_map_of_mem posKey hmin'.1
      exact le_antisymm hle hge
    simp only [groupPlaceholders]
    rw [if_neg hlenb, if_neg hs2]
    refine ⟨addMissingBookPlaceholder name (k : ℚ) b0.author, ?_, rfl⟩
    apply List.mem_map_of_mem
    apply List.mem_append_right
    rw [hht, List.map_cons, hhf]
    simp only [leadingGaps, if_pos hf1]
    apply mem_gapPositions.mpr
    refine ⟨k - 1, ?_, hkf⟩
    have hc : ((k - 1 : ℕ) : ℚ) = (k : ℚ) - 1 := by
      push_cast [hk1]
      ring
    rw [hc]
    ring
  · have hr2 : List.range 2 = [0, 1] := rfl
    have ht : Int.toNat 2 = 2 := rfl
    norm_num [groupPlaceholders, sampleBook, sortByPos, insertByPos, posKey, interiorGaps,
      leadingGaps, gapPositions, ht, hr2]

/-- C4 witness: in the group `{3, 4}` of series `"S"`, position 1 (an
integer below the smallest known position 3) receives a placeholder. -/
theorem leading_gap_placeholders_witness :
    ∃ p ∈ groupPlaceholders "S" [sampleBook 3, sampleBook 4],
      p.series_position = some ((1 : ℕ) : ℚ) :=
  leading_gap_placeholders.1 "S" [sampleBook 3, sampleBook 4] 3
    (by simp [sampleBook]) (by simp [sampleBook]; norm_num) (by simp [sampleBook])
    (by norm_num) 1 (by norm_num) (by norm_num)

/-- C7 counterexample: on a row with no author alias the TypeScript
normalizer leaves `author` absent (`normalized.author || undefined`),
not the claimed default string `"Unknown Author"`. -/
theorem author_not_defaulted_counterexample :
    (normalizeLibationData []).map (fun r => r.author) = .ok none
    ∧ (Except.ok (none : Option JSVal) : Except JSErr (Option JSVal)) ≠
        .ok (some (.str "Unknown Author")) := by
  refine ⟨by decide, by decide⟩

/-- C7 (amended): `normalizeLibationData` defaults `title` to
`"Unknown Title"` when no title alias matched a present value, and leaves
every other field — including `author` — unset when no alias matched; the
`"Unknown Author"` default exists only in the legacy duplicate
implementation (`src/unnamed/part_000`), whose normalizer is modelled by
`normalizeLibationDataLegacy`. -/
theorem normalize_field_defaults :
    (∀ (row : Row) (r : Audiobook), normalizeLibationData row = .ok r →
        (firstMatch row titleAliases = none → r.title = .str "Unknown Title")
        ∧ (firstMatch row authorAliases = none → r.author = none)
        ∧ (firstMatch row narratorAliases = none → r.narrator = none)
        ∧ (firstMatch row asinAliases = none → r.asin = none)
        ∧ (firstMatch row seriesPositionAliases = none → r.series_position = none)
        ∧ (firstMatch row releaseDateAliases = none → r.release_date = none)
        ∧ (firstMatch row purchaseDateAliases = none → r.purchase_date = none)
        ∧ (firstMatch row ratingAliases = none → r.rating = none)
        ∧ (firstMatch row lengthAliases = none → r.length_minutes = none))
    ∧ (∀ (row : Row) (r : Audiobook), normalizeLibationDataLegacy row = .ok r →
        firstMatch row authorAliases = none → r.author = some (.str "Unknown Author")) := by
  constructor
  · intro row r hr
    unfold normalizeLibationData at hr
    cases hcs : cleanSeriesName (firstMatch row seriesAliases) with
    | error e => rw [hcs] at hr; cases hr
    | ok sname =>
      rw [hcs] at hr
      rw [Except.ok.injEq] at hr
      subst hr
      refine ⟨?_, ?_, ?_, ?_, ?_, ?_, ?_, ?_, ?_⟩ <;>
        intro hnone <;>
        simp [jsOr, jsOrUndef, parseSeriesPosition, parseDate, parseRating,
          parseDuration, hnone]
  · intro row r hr hnone
    unfold normalizeLibationDataLegacy at hr
    cases hcs : cleanSeriesName (firstMatch row seriesAliases) with
    | error e => rw [hcs] at hr; cases hr
    | ok sname =>
      rw [hcs] at hr
      rw [Except.ok.injEq] at hr
      subst hr
      simp [jsOr, hnone]

/-- The record the TypeScript normalizer produces from an empty row. -/
def unknownRecord : Audiobook :=
  { asin := none
    title := .str "Unknown Title"
    series_name := none
    series_position := none
    author := none
    narrator := none
    owned := true
    listened := false
    release_date := none
    purchase_date := none
    rating := none
    length_minutes := none }

/-- C7 witness: the empty row normalizes with the default title and an
absent author. -/
theorem normalize_field_defaults_witness :
    normalizeLibationData [] = .ok unknownRecord
    ∧ unknownRecord.title = .str "Unknown Title"
    ∧ unknownRecord.author = none := by
  have hok : normalizeLibationData [] = .ok unknownRecord := by decide
  have happ := normalize_field_defaults.1 [] unknownRecord hok
  exact ⟨hok, happ.1 (by decide), (happ.2).1 (by decide)⟩

/-- C8: `parseLibationExport` reports `missingBooksFound` as the
post-ingestion count of stored unowned records (`SELECT COUNT(*) ...
WHERE owned = 0`); ingesting the 3-row series `"Foo"` with positions
1, 2, 4 into an empty store yields exactly 4 records — the 3 owned ones
plus one placeholder at position 3 — and `missingBooksFound = 1`. -/
theorem missingBooksFound_counts_unowned :
    (∀ (data : List Row) (s : DBState) (out : IngestSummary × DBState),
        parseLibationExport data s = .ok out →
        out.1.missingBooksFound = getMissingBooksCount out.2)
    ∧ parseLibationExport fooRows emptyDB =
        .ok ({ processed := 3, series := 1, missingBooksFound := 1 }, fooDBOnce)
    ∧ getMissingBooksCount fooDBOnce = 1
    ∧ fooDBOnce.rows.length = 4
    ∧ (fooDBOnce.rows.filter (fun r => r.2.owned)).length = 3 := by
  refine ⟨?_, ?_, ?_, rfl, ?_⟩
  · intro data s out h
    unfold parseLibationExport at h
    cases hna : normalizeAll data with
    | error e => rw [hna] at h; cases h
    | ok books =>
      rw [hna] at h
      rw [Except.ok.injEq] at h
      subst h
      rfl
  · have h1 := normalize_fooRow "B1" "1" "A1" 1 (by decide) (by decide) (by decide)
      parseSeriesPosition_str_one
    have h2 := normalize_fooRow "B2" "2" "A2" 2 (by decide) (by decide) (by decide)
      parseSeriesPosition_str_two
    have h3 := normalize_fooRow "B4" "4" "A4" 4 (by decide) (by decide) (by decide)
      parseSeriesPosition_str_four
    have hr1 : List.range 1 = [0] := rfl
    have ht2 : Int.toNat 2 = 2 := rfl
    simp only [parseLibationExport, fooRows, normalizeAll, h1, h2, h3]
    simp [buildSeriesMap, addToSeriesMap, detectMissingSeriesBooks, groupPlaceholders,
      fooBook, sortByPos, insertByPos, posKey, interiorGaps, leadingGaps, gapPositions,
      addMissingBookPlaceholder, upsertAudiobook, getMissingBooksCount, emptyDB, fooDBOnce,
      fooPlaceholder, jsNumToString_three, hr1, ht2]
    norm_num [jsNumToString_three, hr1, ht2, gapPositions, interiorGaps, leadingGaps,
      insertByPos, posKey, sortByPos, groupPlaceholders, addMissingBookPlaceholder,
      upsertAudiobook, getMissingBooksCount, fooDBOnce, fooPlaceholder, fooBook]
    decide
  · simp [getMissingBooksCount, fooDBOnce, fooBook, fooPlaceholder,
      addMissingBookPlaceholder]
  · simp [fooDBOnce, fooBook, fooPlaceholder, addMissingBookPlaceholder]

/-- C8 witness: the general count law applied to the concrete scenario. -/
theorem missingBooksFound_counts_unowned_witness :
    ({ processed := 3, series := 1, missingBooksFound := 1 } :
      IngestSummary).missingBooksFound = getMissingBooksCount fooDBOnce :=
  missingBooksFound_counts_unowned.1 fooRows emptyDB
    ({ processed := 3, series := 1, missingBooksFound := 1 }, fooDBOnce)
    missingBooksFound_counts_unowned.2.1

/-- C1: re-ingesting the identical two-row export (`Foo` positions 1 and 3)
does NOT reproduce the stored record set.  The real records conflict on
their `UNIQUE` `asin` and are replaced, but the synthesized placeholder
carries a `NULL` `asin`, which `INSERT OR REPLACE` never treats as a
conflict — there is no `(seriesName, seriesPosition)` fallback key
anywhere in `upsertAudiobook` or the schema — so the second run inserts a
second copy of the position-2 placeholder: 3 rows after one run, 4 rows
after two, among them two unowned `("Foo", 2)` rows, and
`missingBooksFound` grows from 1 to 2. -/
theorem reingestion_duplicates_placeholders :
    parseLibationExport dupRows emptyDB =
      .ok ({ processed := 2, series := 1, missingBooksFound := 1 }, dupDBOnce)
    ∧ parseLibationExport dupRows dupDBOnce =
      .ok ({ processed := 2, series := 1, missingBooksFound := 2 }, dupDBTwice)
    ∧ dupDBOnce.rows.length = 3
    ∧ dupDBTwice.rows.length = 4
    ∧ (dupDBTwice.rows.filter (fun r =>
        decide (r.2.series_name = some "Foo") && decide (r.2.series_position = some 2)
        && (r.2.owned == false))).length = 2 := by
  have h1 := normalize_fooRow "B1" "1" "A1" 1 (by decide) (by decide) (by decide)
    parseSeriesPosition_str_one
  have h3 := normalize_fooRow "B3" "3" "A3" 3 (by decide) (by decide) (by decide)
    parseSeriesPosition_str_three
  have hr1 : List.range 1 = [0] := rfl
  refine ⟨?_, ?_, rfl, rfl, ?_⟩
  · simp only [parseLibationExport, dupRows, normalizeAll, h1, h3]
    simp [buildSeriesMap, addToSeriesMap, detectMissingSeriesBooks, groupPlaceholders,
      fooBook, sortByPos, insertByPos, posKey, interiorGaps, leadingGaps, gapPositions,
      addMissingBookPlaceholder, upsertAudiobook, getMissingBooksCount, emptyDB, dupDBOnce,
      dupPlaceholder, jsNumToString_two, hr1]
    norm_num [jsNumToString_two, hr1, gapPositions, interiorGaps, leadingGaps, insertByPos,
      posKey, sortByPos, groupPlaceholders, addMissingBookPlaceholder, upsertAudiobook,
      getMissingBooksCount, dupDBOnce, dupPlaceholder, fooBook]
    decide
  · simp only [parseLibationExport, dupRows, normalizeAll, h1, h3]
    simp [buildSeriesMap, addToSeriesMap, detectMissingSeriesBooks, groupPlaceholders,
      fooBook, sortByPos, insertByPos, posKey, interiorGaps, leadingGaps, gapPositions,
      addMissingBookPlaceholder, upsertAudiobook, getMissingBooksCount, dupDBOnce,
      dupDBTwice, dupPlaceholder, jsNumToString_two, hr1]
    norm_num [jsNumToString_two, hr1, gapPositions, interiorGaps, leadingGaps, insertByPos,
      posKey, sortByPos, groupPlaceholders, addMissingBookPlaceholder, upsertAudiobook,
      getMissingBooksCount, dupDBOnce, dupDBTwice, dupPlaceholder, fooBook]
    decide
  · simp [dupDBTwice, dupPlaceholder, addMissingBookPlaceholder, fooBook]

/-- C10: when a re-ingested row's `asin` matches a stored record,
`upsertAudiobook` replaces the whole stored row with the freshly
normalized record under a fresh database id: even after `markAsListened`
set the stored record's `listened` flag, the only surviving row with that
`asin` is `(freshId, normalized)` with `listened = false`, and no row with
the old id remains. -/
theorem upsert_replaces_whole_row :
    ∀ (s : DBState) (i : Nat) (old : Audiobook) (a : JSVal) (row : Row) (r : Audiobook),
      (i, old) ∈ s.rows →
      old.asin = some a →
      (∀ p ∈ s.rows, p.1 = i → p = (i, old)) →
      (∀ p ∈ s.rows, p.1 < s.nextId) →
      normalizeLibationData row = .ok r →
      r.asin = some a →
      ∀ (nid : Nat) (s2 : DBState),
        upsertAudiobook r (markAsListened i s).2 = (nid, s2) →
        (i, { old with listened := true }) ∈ ((markAsListened i s).2).rows
        ∧ r.listened = false
        ∧ nid ≠ i
        ∧ (∀ p ∈ s2.rows, p.1 ≠ i)
        ∧ (∀ p ∈ s2.rows, p.2.asin = some a → p = (nid, r))
        ∧ (nid, r) ∈ s2.rows := by
  intro s i old a row r hmem hasin hid hinv hnorm hrasin nid s2 hup
  have hlist : r.listened = false := (normalizeLibationData_flags hnorm).1
  have hni : i < s.nextId := hinv (i, old) hmem
  simp only [upsertAudiobook, markAsListened, hrasin] at hup
  rw [Prod.mk.injEq] at hup
  obtain ⟨rfl, rfl⟩ := hup
  refine ⟨?_, hlist, (Nat.ne_of_lt hni).symm, ?_, ?_, ?_⟩
  · refine List.mem_map.mpr ⟨(i, old), hmem, ?_⟩
    simp
  · intro p hp
    rcases List.mem_append.mp hp with hp | hp
    · obtain ⟨hp1, hp2⟩ := List.mem_filter.mp hp
      obtain ⟨p0, hp0, rfl⟩ := List.mem_map.mp hp1
      intro hpi
      have hfst : (if p0.1 = i then (p0.1, { p0.2 with listened := true }) else p0).1
          = p0.1 := by
        by_cases h : p0.1 = i <;> simp [h]
      rw [hfst] at hpi
      have hp0eq : p0 = (i, old) := hid p0 hp0 hpi
      subst hp0eq
      simp only [if_pos rfl] at hp2
      simp [hasin] at hp2
    · rw [List.mem_singleton.mp hp]
      exact (Nat.ne_of_lt hni).symm
  · intro p hp hpa
    rcases List.mem_append.mp hp with hp | hp
    · obtain ⟨_, hp2⟩ := List.mem_filter.mp hp
      simp [hpa] at hp2
    · exact List.mem_singleton.mp hp
  · exact List.mem_append_right _ (List.mem_singleton.mpr rfl)

/-- A one-row stored state whose record was imported with asin `"A1"`. -/
def listenedDB : DBState := ⟨[(1, fooBook "B1" 1 "A1")], 2⟩

/-- C10 witness: marking the stored row listened and re-upserting the
re-normalized row leaves a single `"A1"` record, unlistened, under the
fresh id 2 instead of 1. -/
theorem upsert_replaces_whole_row_witness :
    (1, { fooBook "B1" 1 "A1" with listened := true })
        ∈ ((markAsListened 1 listenedDB).2).rows
    ∧ (fooBook "B1" 1 "A1").listened = false
    ∧ (2 : Nat) ≠ 1
    ∧ (∀ p ∈ (⟨[(2, fooBook "B1" 1 "A1")], 3⟩ : DBState).rows, p.1 ≠ 1)
    ∧ (∀ p ∈ (⟨[(2, fooBook "B1" 1 "A1")], 3⟩ : DBState).rows,
        p.2.asin = some (.str "A1") → p = (2, fooBook "B1" 1 "A1"))
    ∧ ((2 : Nat), fooBook "B1" 1 "A1") ∈ (⟨[(2, fooBook "B1" 1 "A1")], 3⟩ : DBState).rows :=
  upsert_replaces_whole_row listenedDB 1 (fooBook "B1" 1 "A1") (.str "A1")
    (fooRow "B1" "1" "A1") (fooBook "B1" 1 "A1")
    (by decide) rfl (by decide) (by decide)
    (normalize_fooRow "B1" "1" "A1" 1 (by decide) (by decide) (by decide)
      parseSeriesPosition_str_one) rfl
    2 ⟨[(2, fooBook "B1" 1 "A1")], 3⟩ (by decide)
